import Mathlib

/-!
Verification of the book segmentation utility (pkuseg_segment_book.py).

The script parses a JSON book (title, author, chapters with title/content),
invokes an external word-segmentation engine on each text field, and prints
the tokenized structure as JSON.  We embed the decoded JSON values as an
inductive type, model the relevant fragment of the Python runtime semantics
(dictionary subscripting, iteration, exception propagation), treat the
segmentation engine as a fallible function parameter, and model the standard
json module with an executable serializer and parser over that fragment.
-/

set_option maxRecDepth 4000

namespace BookSeg

/-- Json values as produced by json.loads: strings, numbers (integer fragment),
booleans, null, arrays, and objects given as key/value lists in insertion
order. -/
inductive Json where
  | str : String → Json
  | num : Int → Json
  | bool : Bool → Json
  | null : Json
  | arr : List Json → Json
  | obj : List (String × Json) → Json

/-- Errors a call can raise, classified by phase.  The parameter E is the
type of internal errors of the external segmentation engine.
jsonDecode models json.JSONDecodeError, keyError a Python KeyError from a
missing dictionary key, typeError a Python TypeError from subscripting or
iterating a value of the wrong shape, engine an error raised inside the
segmentation engine and propagated unchanged, and engineArg the failure of
invoking the engine on a non-string value (the spec defines the engine only
on strings, so this lies on the engine side of the boundary). -/
inductive Err (E : Type) where
  | jsonDecode : Err E
  | keyError : String → Err E
  | typeError : Err E
  | engineArg : Err E
  | engine : E → Err E

/-- Parse-phase failures: malformed JSON, missing keys, and container shape
errors raised by subscripting or iteration.  This is the ParseError class of
the spec error taxonomy; engine-side failures are not parse failures. -/
def Err.isParse : Err E → Bool
  | .jsonDecode => true
  | .keyError _ => true
  | .typeError => true
  | .engineArg => false
  | .engine _ => false

/-- Dictionary lookup with the semantics of a dict built by json.loads from a
key/value list in insertion order: a later binding of the same key overwrites
an earlier one. -/
def pyLookup (kvs : List (String × Json)) (k : String) : Option Json :=
  kvs.foldl (fun acc p => if p.1 = k then some p.2 else acc) none

/-- Subscripting value[k] as in Python: a key lookup on a dictionary raising
KeyError when absent, and TypeError on any non-dictionary value. -/
def pySubscr {E : Type} (j : Json) (k : String) : Except (Err E) Json :=
  match j with
  | .obj kvs =>
    match pyLookup kvs k with
    | some v => .ok v
    | none => .error (.keyError k)
  | _ => .error .typeError

/-- Keys of a dictionary in first-insertion order, deduplicated, as Python
iterates them. -/
def objKeys (kvs : List (String × Json)) : List String :=
  kvs.foldl (fun acc p => if p.1 ∈ acc then acc else acc ++ [p.1]) []

/-- Iteration over a value as in a Python for loop: an array yields its
elements, a dictionary its keys, a string its characters as one-character
strings, and any other value raises TypeError. -/
def pyIter {E : Type} : Json → Except (Err E) (List Json)
  | .arr xs => .ok xs
  | .obj kvs => .ok ((objKeys kvs).map Json.str)
  | .str s => .ok (s.toList.map (fun c => Json.str (String.mk [c])))
  | _ => .error .typeError

/-- Invocation seg.cut(x) of the segmentation engine on a value: on a string
the engine either returns its token list or raises an internal error, which
propagates unchanged; on a non-string the call fails on the engine side. -/
def engineCut {E : Type} (tok : String → Except E (List String)) (j : Json) :
    Except (Err E) (List String) :=
  match j with
  | .str s =>
    match tok s with
    | .ok ts => .ok ts
    | .error e => .error (.engine e)
  | _ => .error .engineArg

/-- Engine wrapper for a total tokenizer that never raises. -/
def tokOk (t0 : String → List String) : String → Except Unit (List String) :=
  fun s => .ok (t0 s)

/-- Double-quote character. -/
def qchar : Char := Char.ofNat 34

/-- Backslash character. -/
def bslash : Char := Char.ofNat 92

/-- Opening curly brace character. -/
def lbrace : Char := Char.ofNat 123

/-- Closing curly brace character. -/
def rbrace : Char := Char.ofNat 125

/-- Backspace character, escaped by json.dumps. -/
def bsChar : Char := Char.ofNat 8

/-- Form-feed character, escaped by json.dumps. -/
def ffChar : Char := Char.ofNat 12

/-- Hexadecimal digit character used by json.dumps in control escapes
(lowercase, as Python emits). -/
def hexDig (n : Nat) : Char :=
  if n < 10 then Char.ofNat (48 + n) else Char.ofNat (87 + n)

/-- Escaping of one character by json.dumps with ensure_ascii=False: quote,
backslash and control characters are escaped, every other character,
non-ASCII included, is emitted literally. -/
def escCharL (c : Char) : List Char :=
  if c = qchar then [bslash, qchar]
  else if c = bslash then [bslash, bslash]
  else if c = '\n' then [bslash, 'n']
  else if c = '\t' then [bslash, 't']
  else if c = '\r' then [bslash, 'r']
  else if c = bsChar then [bslash, 'b']
  else if c = ffChar then [bslash, 'f']
  else if c.toNat < 32 then [bslash, 'u', '0', '0', hexDig (c.toNat / 16), hexDig (c.toNat % 16)]
  else [c]

/-- Serialization of a string literal by json.dumps. -/
def dumpStrL (s : String) : List Char :=
  qchar :: (s.toList.flatMap escCharL ++ [qchar])

mutual

/-- Serialization of a value by json.dumps with ensure_ascii=False and the
default separators, a comma-space between items and a colon-space between a
key and its value. -/
def dumpL : Json → List Char
  | .str s => dumpStrL s
  | .num n => (toString n).toList
  | .bool true => ['t', 'r', 'u', 'e']
  | .bool false => ['f', 'a', 'l', 's', 'e']
  | .null => ['n', 'u', 'l', 'l']
  | .arr [] => ['[', ']']
  | .arr (x :: xs) => '[' :: ((dumpL x ++ dumpElemsL xs) ++ [']'])
  | .obj [] => [lbrace, rbrace]
  | .obj (m :: ms) => lbrace :: ((dumpMemL m ++ dumpMemsL ms) ++ [rbrace])

/-- Serialization of the second and later array elements, each preceded by a
comma and a space. -/
def dumpElemsL : List Json → List Char
  | [] => []
  | x :: xs => ',' :: ' ' :: (dumpL x ++ dumpElemsL xs)

/-- Serialization of one object member, key colon space value. -/
def dumpMemL : String × Json → List Char
  | (k, v) => dumpStrL k ++ (':' :: ' ' :: dumpL v)

/-- Serialization of the second and later object members, each preceded by a
comma and a space. -/
def dumpMemsL : List (String × Json) → List Char
  | [] => []
  | m :: ms => ',' :: ' ' :: (dumpMemL m ++ dumpMemsL ms)

end

/-- json.dumps with ensure_ascii=False as a string-valued function. -/
def dumps (j : Json) : String := String.mk (dumpL j)

/-- Whitespace characters skipped by json.loads between tokens. -/
def isWsChar (c : Char) : Bool :=
  c = ' ' || c = '\n' || c = '\t' || c = '\r'

/-- Drop leading whitespace. -/
def skipWs : List Char → List Char
  | [] => []
  | c :: cs => if isWsChar c then skipWs cs else c :: cs

/-- Numeric value of one hexadecimal digit character, if any. -/
def hexVal : Char → Option Nat :=
  fun c =>
    if 48 ≤ c.toNat ∧ c.toNat ≤ 57 then some (c.toNat - 48)
    else if 97 ≤ c.toNat ∧ c.toNat ≤ 102 then some (c.toNat - 87)
    else if 65 ≤ c.toNat ∧ c.toNat ≤ 70 then some (c.toNat - 55)
    else none

/-- Prepend a character to the first component of a string-body parse. -/
def consFst (c : Char) : Option (List Char × List Char) → Option (List Char × List Char) :=
  fun o => o.map (fun p => (c :: p.1, p.2))

/-- Parse the body of a JSON string literal after its opening quote, undoing
the escapes json produces, and return the decoded characters together with
the input following the closing quote. -/
def parseStrBody : List Char → Option (List Char × List Char)
  | [] => none
  | c :: cs =>
    if c = qchar then some ([], cs)
    else if c = bslash then
      match cs with
      | [] => none
      | e :: cs₁ =>
        if e = qchar then consFst qchar (parseStrBody cs₁)
        else if e = bslash then consFst bslash (parseStrBody cs₁)
        else if e = '/' then consFst '/' (parseStrBody cs₁)
        else if e = 'n' then consFst '\n' (parseStrBody cs₁)
        else if e = 't' then consFst '\t' (parseStrBody cs₁)
        else if e = 'r' then consFst '\r' (parseStrBody cs₁)
        else if e = 'b' then consFst bsChar (parseStrBody cs₁)
        else if e = 'f' then consFst ffChar (parseStrBody cs₁)
        else if e = 'u' then
          match cs₁ with
          | h₃ :: h₂ :: h₁ :: h₀ :: cs₂ =>
            match hexVal h₃, hexVal h₂, hexVal h₁, hexVal h₀ with
            | some v₃, some v₂, some v₁, some v₀ =>
              consFst (Char.ofNat (((v₃ * 16 + v₂) * 16 + v₁) * 16 + v₀)) (parseStrBody cs₂)
            | _, _, _, _ => none
          | _ => none
        else none
    else consFst c (parseStrBody cs)

/-- Parse a run of decimal digits into an accumulator. -/
def parseDigits : List Char → Nat → Nat × List Char
  | [], acc => (acc, [])
  | c :: cs, acc =>
    if c.isDigit then parseDigits cs (acc * 10 + (c.toNat - 48)) else (acc, c :: cs)

/-- Parse a nonempty run of decimal digits. -/
def parseNatTok : List Char → Option (Nat × List Char)
  | [] => none
  | c :: cs => if c.isDigit then some (parseDigits cs (c.toNat - 48)) else none

/-- Parse the elements of a nonempty array given a value parser, consuming
the closing bracket. -/
def parseElemsF (pv : List Char → Option (Json × List Char)) :
    Nat → List Char → Option (List Json × List Char)
  | 0, _ => none
  | Nat.succ g, cs =>
    match pv cs with
    | none => none
    | some (v, r) =>
      match skipWs r with
      | [] => none
      | d :: r₁ =>
        if d = ',' then (parseElemsF pv g r₁).map (fun p => (v :: p.1, p.2))
        else if d = ']' then some ([v], r₁)
        else none

/-- Parse the members of a nonempty object given a value parser, consuming
the closing brace. -/
def parseMemsF (pv : List Char → Option (Json × List Char)) :
    Nat → List Char → Option (List (String × Json) × List Char)
  | 0, _ => none
  | Nat.succ g, cs =>
    match skipWs cs with
    | [] => none
    | c :: cs₁ =>
      if c = qchar then
        match parseStrBody cs₁ with
        | none => none
        | some (kcs, r₁) =>
          match skipWs r₁ with
          | [] => none
          | d :: r₂ =>
            if d = ':' then
              match pv r₂ with
              | none => none
              | some (v, r₃) =>
                match skipWs r₃ with
                | [] => none
                | d₂ :: r₄ =>
                  if d₂ = ',' then
                    (parseMemsF pv g r₄).map (fun p => ((String.mk kcs, v) :: p.1, p.2))
                  else if d₂ = rbrace then some ([(String.mk kcs, v)], r₄)
                  else none
            else none
      else none

/-- Fuel-indexed recursive-descent parse of one JSON value, modeling
json.loads on the fragment the script exchanges: strings with escapes,
arrays, objects, integers, booleans and null. -/
def parseVal : Nat → List Char → Option (Json × List Char)
  | 0, _ => none
  | Nat.succ fuel, cs =>
    match skipWs cs with
    | [] => none
    | c :: cs₁ =>
      if c = qchar then
        (parseStrBody cs₁).map (fun p => (Json.str (String.mk p.1), p.2))
      else if c = '[' then
        match skipWs cs₁ with
        | [] => none
        | d :: r =>
          if d = ']' then some (Json.arr [], r)
          else (parseElemsF (parseVal fuel) fuel cs₁).map (fun p => (Json.arr p.1, p.2))
      else if c = lbrace then
        match skipWs cs₁ with
        | [] => none
        | d :: r =>
          if d = rbrace then some (Json.obj [], r)
          else (parseMemsF (parseVal fuel) fuel cs₁).map (fun p => (Json.obj p.1, p.2))
      else if c = 't' then
        match cs₁ with
        | 'r' :: 'u' :: 'e' :: r => some (Json.bool true, r)
        | _ => none
      else if c = 'f' then
        match cs₁ with
        | 'a' :: 'l' :: 's' :: 'e' :: r => some (Json.bool false, r)
        | _ => none
      else if c = 'n' then
        match cs₁ with
        | 'u' :: 'l' :: 'l' :: r => some (Json.null, r)
        | _ => none
      else if c = '-' then
        (parseNatTok cs₁).map (fun p => (Json.num (-(p.1 : Int)), p.2))
      else if c.isDigit then
        (parseNatTok (c :: cs₁)).map (fun p => (Json.num (p.1 : Int), p.2))
      else none

/-- json.loads: parse a complete JSON document, allowing surrounding
whitespace and rejecting trailing garbage. -/
def parseJson (s : String) : Option Json :=
  match parseVal (s.length + 1) s.toList with
  | some (j, r) => if skipWs r = [] then some j else none
  | none => none

/-- Chapter loop of segment: for each chapter value, look up title and
content, run the engine on each, concatenate the token lists into the chapter
cut, and emit the dictionary with the original title value and the cut.
Exceptions propagate and abort the loop, as in Python. -/
def segmentChapters {E : Type} (tok : String → Except E (List String)) :
    List Json → Except (Err E) (List Json)
  | [] => .ok []
  | chapter :: rest =>
    match pySubscr chapter "title" with
    | .error e => .error e
    | .ok chapter_title =>
      match pySubscr chapter "content" with
      | .error e => .error e
      | .ok chapter_content =>
        match engineCut tok chapter_title with
        | .error e => .error e
        | .ok cut₁ =>
          match engineCut tok chapter_content with
          | .error e => .error e
          | .ok cut₂ =>
            match segmentChapters tok rest with
            | .error e => .error e
            | .ok restOut =>
              .ok (Json.obj [("title", chapter_title),
                    ("cut", Json.arr ((cut₁ ++ cut₂).map Json.str))] :: restOut)

/-- Body of segment after json.loads, following the source order: look up
title, author and chapters, cut the title and extend with the cut of the
author to form the book cut, then iterate the chapters, and assemble the
output dictionary. -/
def segmentJson {E : Type} (tok : String → Except E (List String)) (book : Json) :
    Except (Err E) Json :=
  match pySubscr book "title" with
  | .error e => .error e
  | .ok title =>
    match pySubscr book "author" with
    | .error e => .error e
    | .ok author =>
      match pySubscr book "chapters" with
      | .error e => .error e
      | .ok chapters =>
        match engineCut tok title with
        | .error e => .error e
        | .ok cutT =>
          match engineCut tok author with
          | .error e => .error e
          | .ok cutA =>
            match pyIter chapters with
            | .error e => .error e
            | .ok chapterList =>
              match segmentChapters tok chapterList with
              | .error e => .error e
              | .ok chapters_output =>
                .ok (Json.obj [("cut", Json.arr ((cutT ++ cutA).map Json.str)),
                      ("chapters", Json.arr chapters_output)])

/-- segment(book_json): json.loads the input then run the segmentation body;
a decode failure raises immediately. -/
def segment {E : Type} (tok : String → Except E (List String)) (book_json : String) :
    Except (Err E) Json :=
  match parseJson book_json with
  | none => .error .jsonDecode
  | some book => segmentJson tok book

/-- segment_dump(book_json): run segment and print the json.dumps
serialization of the result with ensure_ascii=False.  The second component
lists the payloads written to standard output, one entry per print call; on
any error the exception propagates and nothing is written. -/
def segment_dump {E : Type} (tok : String → Except E (List String)) (book_json : String) :
    Except (Err E) Unit × List String :=
  match segment tok book_json with
  | .error e => (.error e, [])
  | .ok out => (.ok (), [dumps out])

/-- Engine invocation together with its invocation log: the list of strings
the engine was called on (a call on a non-string value fails on the engine
boundary before any string is handed over). -/
def engineCutTr {E : Type} (tok : String → Except E (List String)) (j : Json) :
    Except (Err E) (List String) × List String :=
  (engineCut tok j, match j with | .str s => [s] | _ => [])

/-- Instrumented twin of segmentChapters that additionally records every
engine invocation in order. -/
def segmentChaptersTr {E : Type} (tok : String → Except E (List String)) :
    List Json → Except (Err E) (List Json) × List String
  | [] => (.ok [], [])
  | chapter :: rest =>
    match pySubscr chapter "title" with
    | .error e => (.error e, [])
    | .ok chapter_title =>
      match pySubscr chapter "content" with
      | .error e => (.error e, [])
      | .ok chapter_content =>
        match engineCutTr tok chapter_title with
        | (.error e, t₁) => (.error e, t₁)
        | (.ok cut₁, t₁) =>
          match engineCutTr tok chapter_content with
          | (.error e, t₂) => (.error e, t₁ ++ t₂)
          | (.ok cut₂, t₂) =>
            match segmentChaptersTr tok rest with
            | (.error e, t₃) => (.error e, t₁ ++ (t₂ ++ t₃))
            | (.ok restOut, t₃) =>
              (.ok (Json.obj [("title", chapter_title),
                     ("cut", Json.arr ((cut₁ ++ cut₂).map Json.str))] :: restOut),
               t₁ ++ (t₂ ++ t₃))

/-- Instrumented twin of segmentJson that additionally records every engine
invocation in order. -/
def segmentJsonTr {E : Type} (tok : String → Except E (List String)) (book : Json) :
    Except (Err E) Json × List String :=
  match pySubscr book "title" with
  | .error e => (.error e, [])
  | .ok title =>
    match pySubscr book "author" with
    | .error e => (.error e, [])
    | .ok author =>
      match pySubscr book "chapters" with
      | .error e => (.error e, [])
      | .ok chapters =>
        match engineCutTr tok title with
        | (.error e, t₁) => (.error e, t₁)
        | (.ok cutT, t₁) =>
          match engineCutTr tok author with
          | (.error e, t₂) => (.error e, t₁ ++ t₂)
          | (.ok cutA, t₂) =>
            match pyIter chapters with
            | .error e => (.error e, t₁ ++ t₂)
            | .ok chapterList =>
              match segmentChaptersTr tok chapterList with
              | (.error e, t₃) => (.error e, t₁ ++ (t₂ ++ t₃))
              | (.ok chapters_output, t₃) =>
                (.ok (Json.obj [("cut", Json.arr ((cutT ++ cutA).map Json.str)),
                       ("chapters", Json.arr chapters_output)]),
                 t₁ ++ (t₂ ++ t₃))

/-- Chapter of the data model: a title and a content string. -/
structure Chapter where
  title : String
  content : String

/-- Book of the data model: title, author, and an ordered chapter list. -/
structure Book where
  title : String
  author : String
  chapters : List Chapter

/-- TokenizedChapter of the data model: the original chapter title unchanged
and the token sequence of title plus content. -/
structure TokenizedChapter where
  title : String
  cut : List String

/-- TokenizedBook of the data model: the token sequence of title plus author
and the tokenized chapters in input order. -/
structure TokenizedBook where
  cut : List String
  chapters : List TokenizedChapter

/-- Token list an engine call returns in a run where it does not fail; on a
failing argument the value is irrelevant and defaults to the empty list. -/
def okTok {E : Type} (tok : String → Except E (List String)) (s : String) : List String :=
  match tok s with
  | .ok ts => ts
  | .error _ => []

/-- Tokenized chapter a non-failing run produces for one input chapter. -/
def tcOfE {E : Type} (tok : String → Except E (List String)) (c : Chapter) : TokenizedChapter :=
  ⟨c.title, okTok tok c.title ++ okTok tok c.content⟩

/-- Tokenized book a non-failing run produces for one input book. -/
def segmentSpecE {E : Type} (tok : String → Except E (List String)) (b : Book) : TokenizedBook :=
  ⟨okTok tok b.title ++ okTok tok b.author, b.chapters.map (tcOfE tok)⟩

/-- Modelled from the spec, section 4.1: the pure list-concatenation
semantics of segment on a decoded Book with a total tokenizer, the reference
the mutating implementation is compared against. -/
def segmentSpec (t0 : String → List String) (b : Book) : TokenizedBook :=
  ⟨t0 b.title ++ t0 b.author,
   b.chapters.map (fun c => ⟨c.title, t0 c.title ++ t0 c.content⟩)⟩

/-- Json encoding of a tokenized chapter, with the key order the script
builds: title first, then cut. -/
def encodeTC (c : TokenizedChapter) : Json :=
  .obj [("title", .str c.title), ("cut", .arr (c.cut.map .str))]

/-- Json encoding of a tokenized book, with the key order the script builds:
cut first, then chapters. -/
def encodeTB (tb : TokenizedBook) : Json :=
  .obj [("cut", .arr (tb.cut.map .str)),
        ("chapters", .arr (tb.chapters.map encodeTC))]

/-- A decoded value represents a chapter: it is a dictionary whose title and
content entries are exactly the strings of the chapter.  Extra keys are
unrestricted. -/
def reprChapter (cj : Json) (c : Chapter) : Bool :=
  match cj with
  | .obj kvs =>
    (match pyLookup kvs "title" with
     | some (.str s) => s == c.title
     | _ => false) &&
    (match pyLookup kvs "content" with
     | some (.str s) => s == c.content
     | _ => false)
  | _ => false

/-- A decoded chapter list represents a chapter list elementwise, in
order. -/
def reprChapters : List Json → List Chapter → Bool
  | [], [] => true
  | cj :: cjs, c :: cs => reprChapter cj c && reprChapters cjs cs
  | _, _ => false

/-- A decoded value represents a book: a dictionary whose title and author
entries are the strings of the book and whose chapters entry is an array
representing the chapter list.  Extra keys are unrestricted. -/
def reprBook (j : Json) (b : Book) : Bool :=
  match j with
  | .obj kvs =>
    (match pyLookup kvs "title" with
     | some (.str s) => s == b.title
     | _ => false) &&
    (match pyLookup kvs "author" with
     | some (.str s) => s == b.author
     | _ => false) &&
    (match pyLookup kvs "chapters" with
     | some (.arr cjs) => reprChapters cjs b.chapters
     | _ => false)
  | _ => false

/-- Texts the engine is invoked on during a run over a chapter list, in
order: title then content of each chapter. -/
def chapterCalls (cs : List Chapter) : List String :=
  cs.flatMap (fun c => [c.title, c.content])

/-- Texts the engine is invoked on during a run over a book, in order: book
title, book author, then title and content of each chapter. -/
def callSeq (b : Book) : List String :=
  b.title :: b.author :: chapterCalls b.chapters

/-- Index and error of the first text in a list on which the engine fails,
if any. -/
def firstFailure {E : Type} (tok : String → Except E (List String)) :
    List String → Option (Nat × E)
  | [] => none
  | s :: ss =>
    match tok s with
    | .error e => some (0, e)
    | .ok _ => (firstFailure tok ss).map (fun ke => (ke.1 + 1, ke.2))

/-- A call outcome is a parse-phase failure. -/
def isParseFailure {E : Type} {α : Type} : Except (Err E) α → Bool
  | .error e => e.isParse
  | .ok _ => false

/-- Field lookup on a decoded dictionary value, for stating properties of
the output object. -/
def jGet (j : Json) (k : String) : Option Json :=
  match j with
  | .obj kvs => pyLookup kvs k
  | _ => none

/-- A looked-up entry is either absent or a string. -/
def strOrAbsent (kvs : List (String × Json)) (k : String) : Bool :=
  match pyLookup kvs k with
  | none => true
  | some (.str _) => true
  | some _ => false

/-- A chapter value is a dictionary whose present title and content entries
are strings. -/
def chWellTyped (cj : Json) : Bool :=
  match cj with
  | .obj ckvs => strOrAbsent ckvs "title" && strOrAbsent ckvs "content"
  | _ => false

/-- A chapter dictionary lacks its title or its content entry. -/
def chMissing (cj : Json) : Bool :=
  match cj with
  | .obj ckvs => (pyLookup ckvs "title").isNone || (pyLookup ckvs "content").isNone
  | _ => false

/-- Every required field that is present has the type the data model
assigns: string title and author, chapters an array of dictionaries whose
present title and content entries are strings.  Absence of a field is
allowed. -/
def wellTypedPresent (j : Json) : Bool :=
  match j with
  | .obj kvs =>
    strOrAbsent kvs "title" && strOrAbsent kvs "author" &&
    (match pyLookup kvs "chapters" with
     | none => true
     | some (.arr cjs) => cjs.all chWellTyped
     | some _ => false)
  | _ => false

/-- Some required field of the decoded book is absent: title, author or
chapters at book level, or title or content in some chapter of the chapters
array. -/
def missingRequired (j : Json) : Bool :=
  match j with
  | .obj kvs =>
    (pyLookup kvs "title").isNone ||
    (pyLookup kvs "author").isNone ||
    (match pyLookup kvs "chapters" with
     | none => true
     | some (.arr cjs) => cjs.any chMissing
     | some _ => false)
  | _ => false

/-- An optional value is absent or satisfies a predicate. -/
def optAll (p : α → Bool) : Option α → Bool
  | none => true
  | some a => p a

mutual

/-- A decoded value built from strings, arrays and objects only, the shape
of every output of segment. -/
def textual : Json → Bool
  | .str _ => true
  | .num _ => false
  | .bool _ => false
  | .null => false
  | .arr xs => textualList xs
  | .obj kvs => textualMems kvs

/-- All values of a list are textual. -/
def textualList : List Json → Bool
  | [] => true
  | x :: xs => textual x && textualList xs

/-- All values of a member list are textual. -/
def textualMems : List (String × Json) → Bool
  | [] => true
  | m :: ms => textual m.2 && textualMems ms

end

mutual

/-- Parser fuel bound of a value. -/
def jsize : Json → Nat
  | .str _ => 1
  | .num _ => 1
  | .bool _ => 1
  | .null => 1
  | .arr xs => 1 + esize xs
  | .obj kvs => 1 + msize kvs

/-- Parser fuel bound of an element list. -/
def esize : List Json → Nat
  | [] => 0
  | x :: xs => 1 + jsize x + esize xs

/-- Parser fuel bound of a member list. -/
def msize : List (String × Json) → Nat
  | [] => 0
  | m :: ms => 1 + jsize m.2 + msize ms

end

/-- Heap of list cells, modeling Python list objects; a reference is an
index into the arena. -/
abbrev Heap : Type := List (List String)

/-- Allocate a fresh list cell holding v and return its reference, modeling
binding the fresh list an engine call returns. -/
def alloc (h : Heap) (v : List String) : Heap × Nat :=
  (h ++ [v], h.length)

/-- Current value of a list cell. -/
def readRef (h : Heap) (r : Nat) : List String :=
  h.getD r []

/-- In-place list.extend on the cell r, modeling cut.extend(...). -/
def extendRef (h : Heap) (r : Nat) (v : List String) : Heap :=
  h.set r (readRef h r ++ v)

/-- Chapter loop of the mutating implementation: per chapter, bind the fresh
list returned for the title cut, extend it in place with the content cut,
and keep the reference in the chapter record. -/
def segmentImpLoop (t0 : String → List String) (h : Heap) :
    List Chapter → Heap × List (String × Nat)
  | [] => (h, [])
  | c :: cs =>
    let ar := alloc h (t0 c.title)
    let h₂ := extendRef ar.1 ar.2 (t0 c.content)
    let rec₂ := segmentImpLoop t0 h₂ cs
    (rec₂.1, (c.title, ar.2) :: rec₂.2)

/-- The mutating extend-and-reuse implementation of the source, with the
Python list objects made explicit as heap cells: book_cut is bound to the
fresh list returned for the title, extended in place with the author cut,
and the cell contents are read off when the result structure is built. -/
def segmentImp (t0 : String → List String) (b : Book) : TokenizedBook :=
  let ar := alloc [] (t0 b.title)
  let h₂ := extendRef ar.1 ar.2 (t0 b.author)
  let loopOut := segmentImpLoop t0 h₂ b.chapters
  ⟨readRef loopOut.1 ar.2,
   loopOut.2.map (fun p => ⟨p.1, readRef loopOut.1 p.2⟩)⟩

/-! Parser and serializer lemmas, leading to the serialization round trip. -/

theorem mk_toList (s : String) : String.mk s.toList = s := rfl

theorem skipWs_cons_not_ws {c : Char} (cs : List Char) (h : isWsChar c = false) :
    skipWs (c :: cs) = c :: cs := by
  simp [skipWs, h]

theorem skipWs_space (cs : List Char) : skipWs (' ' :: cs) = skipWs cs := by
  simp +decide [skipWs]

theorem hexVal_hexDig (m : Nat) (h : m < 16) : hexVal (hexDig m) = some m := by
  interval_cases m <;> decide

theorem parseStrBody_esc (c : Char) (tail : List Char) :
    parseStrBody (escCharL c ++ tail) = consFst c (parseStrBody tail) := by
  by_cases h1 : c = qchar
  · subst h1; simp +decide only [escCharL, List.cons_append, List.nil_append]
    rw [parseStrBody.eq_def]; simp +decide
  by_cases h2 : c = bslash
  · subst h2; simp +decide only [escCharL, List.cons_append, List.nil_append]
    rw [parseStrBody.eq_def]; simp +decide
  by_cases h3 : c = '\n'
  · subst h3; simp +decide only [escCharL, List.cons_append, List.nil_append]
    rw [parseStrBody.eq_def]; simp +decide
  by_cases h4 : c = '\t'
  · subst h4; simp +decide only [escCharL, List.cons_append, List.nil_append]
    rw [parseStrBody.eq_def]; simp +decide
  by_cases h5 : c = '\r'
  · subst h5; simp +decide only [escCharL, List.cons_append, List.nil_append]
    rw [parseStrBody.eq_def]; simp +decide
  by_cases h6 : c = bsChar
  · subst h6; simp +decide only [escCharL, List.cons_append, List.nil_append]
    rw [parseStrBody.eq_def]; simp +decide
  by_cases h7 : c = ffChar
  · subst h7; simp +decide only [escCharL, List.cons_append, List.nil_append]
    rw [parseStrBody.eq_def]; simp +decide
  by_cases h8 : c.toNat < 32
  · have hv1 : hexVal (hexDig (c.toNat / 16)) = some (c.toNat / 16) :=
      hexVal_hexDig _ (by omega)
    have hv0 : hexVal (hexDig (c.toNat % 16)) = some (c.toNat % 16) :=
      hexVal_hexDig _ (by omega)
    simp only [escCharL, h1, h2, h3, h4, h5, h6, h7, if_neg, if_false, ite_false,
      if_pos h8, ite_true, List.cons_append, List.nil_append]
    rw [parseStrBody.eq_def]
    simp +decide [hv1, hv0, (show hexVal '0' = some 0 from by decide)]
    have harith : c.toNat / 16 * 16 + c.toNat % 16 = c.toNat := by omega
    rw [harith, Char.ofNat_toNat]
  · simp only [escCharL, h1, h2, h3, h4, h5, h6, h7, h8, if_false, ite_false,
      List.cons_append, List.nil_append]
    rw [parseStrBody.eq_def]
    simp [h1, h2]

theorem parseStrBody_dump (s : List Char) (rest : List Char) :
    parseStrBody (s.flatMap escCharL ++ (qchar :: rest)) = some (s, rest) := by
  induction s with
  | nil =>
    simp only [List.flatMap_nil, List.nil_append]
    rw [parseStrBody.eq_def]; simp +decide
  | cons c s ih =>
    have hsplit : (c :: s).flatMap escCharL ++ (qchar :: rest) =
        escCharL c ++ (s.flatMap escCharL ++ (qchar :: rest)) := by
      simp [List.flatMap_cons, List.append_assoc]
    rw [hsplit, parseStrBody_esc, ih]
    simp [consFst]

theorem dumpL_head (j : Json) (hj : textual j = true) :
    ∃ tl, dumpL j = qchar :: tl ∨ dumpL j = '[' :: tl ∨ dumpL j = lbrace :: tl := by
  cases j with
  | str s =>
    exact ⟨s.toList.flatMap escCharL ++ [qchar], Or.inl (by simp [dumpL, dumpStrL])⟩
  | num n => simp [textual] at hj
  | bool b => simp [textual] at hj
  | null => simp [textual] at hj
  | arr xs =>
    cases xs with
    | nil => exact ⟨[']'], Or.inr (Or.inl (by simp [dumpL]))⟩
    | cons x xs =>
      exact ⟨(dumpL x ++ dumpElemsL xs) ++ [']'], Or.inr (Or.inl (by simp [dumpL]))⟩
  | obj ms =>
    cases ms with
    | nil => exact ⟨[rbrace], Or.inr (Or.inr (by simp [dumpL]))⟩
    | cons m ms =>
      exact ⟨(dumpMemL m ++ dumpMemsL ms) ++ [rbrace], Or.inr (Or.inr (by simp [dumpL]))⟩

theorem skipWs_dump (j : Json) (hj : textual j = true) (r : List Char) :
    skipWs (dumpL j ++ r) = dumpL j ++ r := by
  obtain ⟨tl, h | h | h⟩ := dumpL_head j hj <;>
    rw [h] <;> exact skipWs_cons_not_ws _ (by decide)

theorem jsize_pos (j : Json) : 1 ≤ jsize j := by
  cases j <;> simp [jsize]

theorem length_le_esize (xs : List Json) : xs.length ≤ esize xs := by
  induction xs with
  | nil => simp [esize]
  | cons x xs ih => have := jsize_pos x; simp [esize]; omega

theorem length_le_msize (ms : List (String × Json)) : ms.length ≤ msize ms := by
  induction ms with
  | nil => simp [msize]
  | cons m ms ih => have := jsize_pos m.2; simp [msize]; omega

theorem parseVal_space (f : Nat) (cs : List Char) :
    parseVal f (' ' :: cs) = parseVal f cs := by
  cases f with
  | zero => rfl
  | succ g => simp only [parseVal, skipWs_space]

theorem parseElemsF_space (f g : Nat) (cs : List Char) :
    parseElemsF (parseVal f) g (' ' :: cs) = parseElemsF (parseVal f) g cs := by
  cases g with
  | zero => rfl
  | succ g => simp only [parseElemsF, parseVal_space]

theorem parseMemsF_space (f g : Nat) (cs : List Char) :
    parseMemsF (parseVal f) g (' ' :: cs) = parseMemsF (parseVal f) g cs := by
  cases g with
  | zero => rfl
  | succ g => simp only [parseMemsF, skipWs_space]

theorem parseElemsF_dump (f : Nat)
    (HV : ∀ j rest, textual j = true → jsize j ≤ f →
      parseVal f (dumpL j ++ rest) = some (j, rest)) :
    ∀ (xs : List Json) (x : Json) (g : Nat) (rest : List Char),
      textual x = true → textualList xs = true →
      jsize x ≤ f → esize xs ≤ f → 1 + xs.length ≤ g →
      parseElemsF (parseVal f) g (dumpL x ++ (dumpElemsL xs ++ (']' :: rest))) =
        some (x :: xs, rest) := by
  intro xs
  induction xs with
  | nil =>
    intro x g rest hx _ hsx _ hg
    cases g with
    | zero => omega
    | succ g =>
      have h1 : dumpL x ++ (dumpElemsL [] ++ (']' :: rest)) = dumpL x ++ (']' :: rest) := by
        simp [dumpElemsL]
      rw [h1]
      simp only [parseElemsF]
      rw [HV x (']' :: rest) hx hsx]
      simp +decide [skipWs]
  | cons y ys ih =>
    intro x g rest hx hxs hsx hsxs hg
    have hy : textual y = true ∧ textualList ys = true := by
      simpa [textualList, Bool.and_eq_true] using hxs
    cases g with
    | zero => omega
    | succ g =>
      have hsy : jsize y ≤ f := by simp [esize] at hsxs; omega
      have hsys : esize ys ≤ f := by simp [esize] at hsxs; omega
      have hg2 : 1 + ys.length ≤ g := by simp at hg; omega
      have hsplit : dumpL x ++ (dumpElemsL (y :: ys) ++ (']' :: rest)) =
          dumpL x ++ (',' :: ' ' :: (dumpL y ++ (dumpElemsL ys ++ (']' :: rest)))) := by
        simp [dumpElemsL, List.append_assoc]
      have hih := ih y g rest hy.1 hy.2 hsy hsys hg2
      rw [hsplit]
      simp only [parseElemsF]
      rw [HV x _ hx hsx]
      simp +decide [skipWs, parseElemsF_space, hih]

theorem parseMemsF_dump (f : Nat)
    (HV : ∀ j rest, textual j = true → jsize j ≤ f →
      parseVal f (dumpL j ++ rest) = some (j, rest)) :
    ∀ (ms : List (String × Json)) (k : String) (v : Json) (g : Nat) (rest : List Char),
      textual v = true → textualMems ms = true →
      jsize v ≤ f → msize ms ≤ f → 1 + ms.length ≤ g →
      parseMemsF (parseVal f) g (dumpMemL (k, v) ++ (dumpMemsL ms ++ (rbrace :: rest))) =
        some ((k, v) :: ms, rest) := by
  intro ms
  induction ms with
  | nil =>
    intro k v g rest hv _ hsv _ hg
    cases g with
    | zero => omega
    | succ g =>
      have hval : parseVal f (dumpL v ++ (rbrace :: rest)) = some (v, rbrace :: rest) :=
        HV _ _ hv hsv
      have hsplit : dumpMemL (k, v) ++ (dumpMemsL [] ++ (rbrace :: rest)) =
          qchar :: (k.toList.flatMap escCharL ++
            (qchar :: (':' :: ' ' :: (dumpL v ++ (rbrace :: rest))))) := by
        simp [dumpMemL, dumpMemsL, dumpStrL, List.append_assoc]
      rw [hsplit]
      simp only [parseMemsF]
      simp +decide [skipWs, parseStrBody_dump, parseVal_space, hval, mk_toList]
  | cons m ms ih =>
    intro k v g rest hv hms hsv hsms hg
    obtain ⟨k₂, v₂⟩ := m
    have hm : textual v₂ = true ∧ textualMems ms = true := by
      simpa [textualMems, Bool.and_eq_true] using hms
    cases g with
    | zero => omega
    | succ g =>
      have hval : parseVal f (dumpL v ++
          (',' :: ' ' :: (dumpMemL (k₂, v₂) ++ (dumpMemsL ms ++ (rbrace :: rest))))) =
          some (v, ',' :: ' ' :: (dumpMemL (k₂, v₂) ++ (dumpMemsL ms ++ (rbrace :: rest)))) :=
        HV _ _ hv hsv
      have hsv₂ : jsize v₂ ≤ f := by simp [msize] at hsms; omega
      have hsms₂ : msize ms ≤ f := by simp [msize] at hsms; omega
      have hg2 : 1 + ms.length ≤ g := by simp at hg; omega
      have hsplit : dumpMemL (k, v) ++ (dumpMemsL ((k₂, v₂) :: ms) ++ (rbrace :: rest)) =
          qchar :: (k.toList.flatMap escCharL ++
            (qchar :: (':' :: ' ' :: (dumpL v ++
              (',' :: ' ' :: (dumpMemL (k₂, v₂) ++ (dumpMemsL ms ++ (rbrace :: rest)))))))) := by
        simp [dumpMemL, dumpMemsL, dumpStrL, List.append_assoc]
      have hih := ih k₂ v₂ g rest hm.1 hm.2 hsv₂ hsms₂ hg2
      rw [hsplit]
      simp only [parseMemsF]
      simp +decide [skipWs, parseStrBody_dump, parseVal_space, hval,
        parseMemsF_space, hih, mk_toList]

theorem parseVal_dump (f : Nat) :
    ∀ (j : Json) (rest : List Char), textual j = true → jsize j ≤ f →
      parseVal f (dumpL j ++ rest) = some (j, rest) := by
  induction f using Nat.strong_induction_on with
  | _ f IH =>
  intro j rest hj hs
  cases f with
  | zero => have := jsize_pos j; omega
  | succ g =>
  have HV : ∀ j rest, textual j = true → jsize j ≤ g →
      parseVal g (dumpL j ++ rest) = some (j, rest) :=
    fun j r a b => IH g (by omega) j r a b
  cases j with
  | num n => simp [textual] at hj
  | bool b => simp [textual] at hj
  | null => simp [textual] at hj
  | str s =>
    have hsplit : dumpL (Json.str s) ++ rest =
        qchar :: (s.toList.flatMap escCharL ++ (qchar :: rest)) := by
      simp [dumpL, dumpStrL]
    rw [hsplit]
    simp only [parseVal]
    simp +decide [skipWs, parseStrBody_dump, mk_toList]
  | arr xs =>
    cases xs with
    | nil =>
      have hsplit : dumpL (Json.arr []) ++ rest = '[' :: ']' :: rest := by simp [dumpL]
      rw [hsplit]
      simp only [parseVal]
      simp +decide [skipWs]
    | cons x xs =>
      have hx : textual x = true ∧ textualList xs = true := by
        simpa [textual, textualList, Bool.and_eq_true] using hj
      have hs2 : 1 + jsize x + esize xs ≤ g := by simp [jsize, esize] at hs; omega
      have hlen := length_le_esize xs
      have hxp := jsize_pos x
      have heq := parseElemsF_dump g HV xs x g rest hx.1 hx.2
        (by omega) (by omega) (by omega)
      have hsplit : dumpL (Json.arr (x :: xs)) ++ rest =
          '[' :: (dumpL x ++ (dumpElemsL xs ++ (']' :: rest))) := by
        simp [dumpL, List.append_assoc]
      rw [hsplit]
      simp only [parseVal]
      simp +decide [skipWs]
      rw [skipWs_dump x hx.1]
      obtain ⟨tl, hh | hh | hh⟩ := dumpL_head x hx.1 <;>
        rw [hh] at heq ⊢ <;>
        simp only [List.cons_append] at heq ⊢ <;>
        simp +decide [heq]
  | obj ms =>
    cases ms with
    | nil =>
      have hsplit : dumpL (Json.obj []) ++ rest = lbrace :: rbrace :: rest := by simp [dumpL]
      rw [hsplit]
      simp only [parseVal]
      simp +decide [skipWs]
    | cons m ms =>
      obtain ⟨k, v⟩ := m
      have hm : textual v = true ∧ textualMems ms = true := by
        simpa [textual, textualMems, Bool.and_eq_true] using hj
      have hs2 : 1 + jsize v + msize ms ≤ g := by simp [jsize, msize] at hs; omega
      have hlen := length_le_msize ms
      have hvp := jsize_pos v
      have heq := parseMemsF_dump g HV ms k v g rest hm.1 hm.2
        (by omega) (by omega) (by omega)
      have hsplit : dumpL (Json.obj ((k, v) :: ms)) ++ rest =
          lbrace :: (dumpMemL (k, v) ++ (dumpMemsL ms ++ (rbrace :: rest))) := by
        simp [dumpL, List.append_assoc]
      have hkey : dumpMemL (k, v) ++ (dumpMemsL ms ++ (rbrace :: rest)) =
          qchar :: ((k.toList.flatMap escCharL ++ [qchar]) ++
            ((':' :: ' ' :: dumpL v) ++ (dumpMemsL ms ++ (rbrace :: rest)))) := by
        simp [dumpMemL, dumpStrL, List.append_assoc]
      rw [hsplit]
      rw [hkey] at heq ⊢
      simp only [List.cons_append] at heq ⊢
      simp only [parseVal]
      simp +decide [skipWs]
      simpa [String.toList, List.append_assoc, List.singleton_append] using heq

mutual

theorem jsize_le_len : ∀ j, textual j = true → jsize j ≤ (dumpL j).length
  | .str s, _ => by simp [jsize, dumpL, dumpStrL]
  | .num n, h => by simp [textual] at h
  | .bool b, h => by simp [textual] at h
  | .null, h => by simp [textual] at h
  | .arr [], _ => by simp [jsize, esize, dumpL]
  | .arr (x :: xs), h => by
    have hx : textual x = true ∧ textualList xs = true := by
      simpa [textual, textualList, Bool.and_eq_true] using h
    have h1 := jsize_le_len x hx.1
    have h2 := esize_le_len xs hx.2
    simp only [jsize, esize, dumpL, List.length_cons, List.length_append]
    simp
    omega
  | .obj [], _ => by simp [jsize, msize, dumpL]
  | .obj (m :: ms), h => by
    have hm : textual m.2 = true ∧ textualMems ms = true := by
      simpa [textual, textualMems, Bool.and_eq_true] using h
    have h1 := jsize_le_len m.2 hm.1
    have h2 := msize_le_len ms hm.2
    have h3 : (dumpMemL m).length = (dumpStrL m.1).length + (2 + (dumpL m.2).length) := by
      obtain ⟨k, v⟩ := m
      simp [dumpMemL]
      omega
    simp only [jsize, msize, dumpL, List.length_cons, List.length_append]
    simp [h3, dumpStrL]
    omega

theorem esize_le_len : ∀ xs, textualList xs = true → esize xs ≤ (dumpElemsL xs).length
  | [], _ => by simp [esize, dumpElemsL]
  | x :: xs, h => by
    have hx : textual x = true ∧ textualList xs = true := by
      simpa [textualList, Bool.and_eq_true] using h
    have h1 := jsize_le_len x hx.1
    have h2 := esize_le_len xs hx.2
    simp [esize, dumpElemsL]
    omega

theorem msize_le_len : ∀ ms, textualMems ms = true → msize ms ≤ (dumpMemsL ms).length
  | [], _ => by simp [msize, dumpMemsL]
  | m :: ms, h => by
    have hm : textual m.2 = true ∧ textualMems ms = true := by
      simpa [textualMems, Bool.and_eq_true] using h
    have h1 := jsize_le_len m.2 hm.1
    have h2 := msize_le_len ms hm.2
    have h3 : (dumpMemL m).length = (dumpStrL m.1).length + (2 + (dumpL m.2).length) := by
      obtain ⟨k, v⟩ := m
      simp [dumpMemL]
      omega
    simp [msize, dumpMemsL, h3, dumpStrL]
    omega

end

/-- Serialize with json.dumps and parse back with json.loads: on every value
built only from strings, arrays, and objects this recovers the value
exactly. -/
theorem parseJson_dumps (j : Json) (hj : textual j = true) :
    parseJson (dumps j) = some j := by
  have htl : (dumps j).toList = dumpL j := rfl
  have hlen : (dumps j).length = (dumpL j).length := rfl
  have hfuel : jsize j ≤ (dumpL j).length + 1 := by
    have := jsize_le_len j hj
    omega
  have h := parseVal_dump ((dumpL j).length + 1) j [] hj hfuel
  rw [List.append_nil] at h
  unfold parseJson
  rw [hlen, htl, h]
  simp [skipWs]

/-! Shape of segment outputs: every success is a value built from strings,
arrays, and objects only. -/

theorem engineCut_ok_str {E : Type} (tok : String → Except E (List String)) (j : Json)
    (ts : List String) (h : engineCut tok j = .ok ts) : ∃ s, j = Json.str s := by
  cases j with
  | str s => exact ⟨s, rfl⟩
  | num n => simp [engineCut] at h
  | bool b => simp [engineCut] at h
  | null => simp [engineCut] at h
  | arr xs => simp [engineCut] at h
  | obj kvs => simp [engineCut] at h

theorem textualList_map_str (l : List String) : textualList (l.map Json.str) = true := by
  induction l with
  | nil => simp [textualList]
  | cons s l ih => simp [textualList, textual, ih]

theorem segmentChapters_textual {E : Type} (tok : String → Except E (List String)) :
    ∀ (cjs outs : List Json), segmentChapters tok cjs = .ok outs → textualList outs = true := by
  intro cjs
  induction cjs with
  | nil =>
    intro outs h
    simp [segmentChapters] at h
    subst h
    simp [textualList]
  | cons ch rest ih =>
    intro outs h
    simp only [segmentChapters] at h
    cases hT : pySubscr (E := E) ch "title" with
    | error e => simp [hT] at h
    | ok chapter_title =>
    simp only [hT] at h
    cases hC : pySubscr (E := E) ch "content" with
    | error e => simp [hC] at h
    | ok chapter_content =>
    simp only [hC] at h
    cases h1 : engineCut tok chapter_title with
    | error e => simp [h1] at h
    | ok cut₁ =>
    simp only [h1] at h
    cases h2 : engineCut tok chapter_content with
    | error e => simp [h2] at h
    | ok cut₂ =>
    simp only [h2] at h
    cases hR : segmentChapters tok rest with
    | error e => simp [hR] at h
    | ok restOut =>
    simp only [hR, Except.ok.injEq] at h
    obtain ⟨s, rfl⟩ := engineCut_ok_str tok chapter_title cut₁ h1
    rw [← h]
    simp [textualList, textual, textualMems, ← List.map_append, textualList_map_str,
      ih restOut hR]

theorem segmentJson_textual {E : Type} (tok : String → Except E (List String)) (j out : Json)
    (h : segmentJson tok j = .ok out) : textual out = true := by
  simp only [segmentJson] at h
  cases hT : pySubscr (E := E) j "title" with
  | error e => simp [hT] at h
  | ok title =>
  simp only [hT] at h
  cases hA : pySubscr (E := E) j "author" with
  | error e => simp [hA] at h
  | ok author =>
  simp only [hA] at h
  cases hCh : pySubscr (E := E) j "chapters" with
  | error e => simp [hCh] at h
  | ok chapters =>
  simp only [hCh] at h
  cases h1 : engineCut tok title with
  | error e => simp [h1] at h
  | ok cutT =>
  simp only [h1] at h
  cases h2 : engineCut tok author with
  | error e => simp [h2] at h
  | ok cutA =>
  simp only [h2] at h
  cases hI : pyIter (E := E) chapters with
  | error e => simp [hI] at h
  | ok chapterList =>
  simp only [hI] at h
  cases hR : segmentChapters tok chapterList with
  | error e => simp [hR] at h
  | ok chapters_output =>
  simp only [hR, Except.ok.injEq] at h
  rw [← h]
  simp [textual, textualMems, textualList, ← List.map_append, textualList_map_str,
    segmentChapters_textual tok chapterList chapters_output hR]

theorem segment_textual {E : Type} (tok : String → Except E (List String)) (raw : String)
    (out : Json) (h : segment tok raw = .ok out) : textual out = true := by
  simp only [segment] at h
  cases hp : parseJson raw with
  | none => rw [hp] at h; cases h
  | some j => rw [hp] at h; exact segmentJson_textual tok j out h

/-! Agreement between the instrumented and the plain segmentation body. -/

theorem segmentChaptersTr_fst {E : Type} (tok : String → Except E (List String)) :
    ∀ cjs, (segmentChaptersTr tok cjs).1 = segmentChapters tok cjs := by
  intro cjs
  induction cjs with
  | nil => rfl
  | cons ch rest ih =>
    simp only [segmentChaptersTr, segmentChapters, engineCutTr]
    cases hT : pySubscr (E := E) ch "title" with
    | error e => simp
    | ok ct =>
    simp only
    cases hC : pySubscr (E := E) ch "content" with
    | error e => simp
    | ok cc =>
    simp only
    cases hE1 : engineCut tok ct with
    | error e => simp
    | ok cut₁ =>
    simp only
    cases hE2 : engineCut tok cc with
    | error e => simp
    | ok cut₂ =>
    simp only
    rcases hR : segmentChaptersTr tok rest with ⟨res, tr⟩
    rw [hR] at ih
    simp only at ih
    rw [← ih]
    cases res <;> simp

theorem segmentJsonTr_fst {E : Type} (tok : String → Except E (List String)) (j : Json) :
    (segmentJsonTr tok j).1 = segmentJson tok j := by
  simp only [segmentJsonTr, segmentJson, engineCutTr]
  cases hT : pySubscr (E := E) j "title" with
  | error e => simp
  | ok title =>
  simp only
  cases hA : pySubscr (E := E) j "author" with
  | error e => simp
  | ok author =>
  simp only
  cases hCh : pySubscr (E := E) j "chapters" with
  | error e => simp
  | ok chapters =>
  simp only
  cases hE1 : engineCut tok title with
  | error e => simp
  | ok cutT =>
  simp only
  cases hE2 : engineCut tok author with
  | error e => simp
  | ok cutA =>
  simp only
  cases hI : pyIter (E := E) chapters with
  | error e => simp
  | ok chapterList =>
  simp only
  have ih := segmentChaptersTr_fst tok chapterList
  rcases hR : segmentChaptersTr tok chapterList with ⟨res, tr⟩
  rw [hR] at ih
  simp only at ih
  rw [← ih]
  cases res <;> simp

/-! Elimination lemmas for the representation predicates. -/

theorem reprChapter_subscr {E : Type} (cj : Json) (c : Chapter) (h : reprChapter cj c = true) :
    pySubscr (E := E) cj "title" = .ok (.str c.title) ∧
    pySubscr (E := E) cj "content" = .ok (.str c.content) := by
  cases cj with
  | obj kvs =>
    simp only [reprChapter, Bool.and_eq_true] at h
    obtain ⟨h1, h2⟩ := h
    constructor
    · cases hL : pyLookup kvs "title" with
      | none => rw [hL] at h1; simp at h1
      | some v =>
        rw [hL] at h1
        cases v with
        | str s => simp at h1; simp [pySubscr, hL, h1]
        | num n => simp at h1
        | bool b => simp at h1
        | null => simp at h1
        | arr xs => simp at h1
        | obj kvs2 => simp at h1
    · cases hL : pyLookup kvs "content" with
      | none => rw [hL] at h2; simp at h2
      | some v =>
        rw [hL] at h2
        cases v with
        | str s => simp at h2; simp [pySubscr, hL, h2]
        | num n => simp at h2
        | bool b => simp at h2
        | null => simp at h2
        | arr xs => simp at h2
        | obj kvs2 => simp at h2
  | str s => simp [reprChapter] at h
  | num n => simp [reprChapter] at h
  | bool b => simp [reprChapter] at h
  | null => simp [reprChapter] at h
  | arr xs => simp [reprChapter] at h

theorem reprBook_subscr {E : Type} (j : Json) (b : Book) (h : reprBook j b = true) :
    pySubscr (E := E) j "title" = .ok (.str b.title) ∧
    pySubscr (E := E) j "author" = .ok (.str b.author) ∧
    ∃ cjs, pySubscr (E := E) j "chapters" = .ok (.arr cjs) ∧
      reprChapters cjs b.chapters = true := by
  cases j with
  | obj kvs =>
    simp only [reprBook, Bool.and_eq_true] at h
    obtain ⟨⟨h1, h2⟩, h3⟩ := h
    refine ⟨?_, ?_, ?_⟩
    · cases hL : pyLookup kvs "title" with
      | none => rw [hL] at h1; simp at h1
      | some v =>
        rw [hL] at h1
        cases v with
        | str s => simp at h1; simp [pySubscr, hL, h1]
        | num n => simp at h1
        | bool b => simp at h1
        | null => simp at h1
        | arr xs => simp at h1
        | obj kvs2 => simp at h1
    · cases hL : pyLookup kvs "author" with
      | none => rw [hL] at h2; simp at h2
      | some v =>
        rw [hL] at h2
        cases v with
        | str s => simp at h2; simp [pySubscr, hL, h2]
        | num n => simp at h2
        | bool b => simp at h2
        | null => simp at h2
        | arr xs => simp at h2
        | obj kvs2 => simp at h2
    · cases hL : pyLookup kvs "chapters" with
      | none => rw [hL] at h3; simp at h3
      | some v =>
        rw [hL] at h3
        cases v with
        | arr cjs => exact ⟨cjs, by simp [pySubscr, hL], h3⟩
        | str s => simp at h3
        | num n => simp at h3
        | bool b => simp at h3
        | null => simp at h3
        | obj kvs2 => simp at h3
  | str s => simp [reprBook] at h
  | num n => simp [reprBook] at h
  | bool b => simp [reprBook] at h
  | null => simp [reprBook] at h
  | arr xs => simp [reprBook] at h

/-! Master lemma: on a represented book, the run is determined by the book
and the engine alone, including the exact engine invocation sequence. -/

theorem firstFailure_tokOk (t0 : String → List String) (l : List String) :
    firstFailure (tokOk t0) l = none := by
  induction l with
  | nil => rfl
  | cons s ss ih => simp [firstFailure, tokOk, ih]

theorem segmentChaptersTr_repr {E : Type} (tok : String → Except E (List String)) :
    ∀ (cjs : List Json) (cs : List Chapter), reprChapters cjs cs = true →
    segmentChaptersTr tok cjs =
      (match firstFailure tok (chapterCalls cs) with
       | some ke => Except.error (Err.engine ke.2)
       | none => Except.ok (cs.map (fun c => encodeTC (tcOfE tok c))),
       match firstFailure tok (chapterCalls cs) with
       | some ke => (chapterCalls cs).take (ke.1 + 1)
       | none => chapterCalls cs) := by
  intro cjs
  induction cjs with
  | nil =>
    intro cs h
    cases cs with
    | nil => simp [segmentChaptersTr, chapterCalls, firstFailure]
    | cons c cs => simp [reprChapters] at h
  | cons cj cjs ih =>
    intro cs h
    cases cs with
    | nil => simp [reprChapters] at h
    | cons c cs =>
      simp only [reprChapters, Bool.and_eq_true] at h
      obtain ⟨h1, h2⟩ := h
      obtain ⟨hT, hC⟩ := reprChapter_subscr (E := E) cj c h1
      simp only [segmentChaptersTr, hT, hC, engineCutTr]
      have hcc : chapterCalls (c :: cs) = c.title :: c.content :: chapterCalls cs := by
        simp [chapterCalls]
      rw [hcc]
      cases hTok1 : tok c.title with
      | error e =>
        simp [engineCut, hTok1, firstFailure]
      | ok ts1 =>
        simp only [engineCut, hTok1]
        cases hTok2 : tok c.content with
        | error e =>
          simp [hTok2, firstFailure, hTok1]
        | ok ts2 =>
          simp only
          rw [ih cs h2]
          cases hF : firstFailure tok (chapterCalls cs) with
          | some ke =>
            obtain ⟨kk, ee⟩ := ke
            simp [firstFailure, hTok1, hTok2, hF]
          | none =>
            simp [firstFailure, hTok1, hTok2, hF, encodeTC, tcOfE, okTok]

theorem segmentJsonTr_repr {E : Type} (tok : String → Except E (List String)) (j : Json)
    (b : Book) (hr : reprBook j b = true) :
    segmentJsonTr tok j =
      (match firstFailure tok (callSeq b) with
       | some ke => Except.error (Err.engine ke.2)
       | none => Except.ok (encodeTB (segmentSpecE tok b)),
       match firstFailure tok (callSeq b) with
       | some ke => (callSeq b).take (ke.1 + 1)
       | none => callSeq b) := by
  obtain ⟨hT, hA, cjs, hCh, hrep⟩ := reprBook_subscr (E := E) j b hr
  simp only [segmentJsonTr, hT, hA, hCh, engineCutTr, pyIter]
  have hcs : callSeq b = b.title :: b.author :: chapterCalls b.chapters := rfl
  rw [hcs]
  cases hTok1 : tok b.title with
  | error e => simp [engineCut, hTok1, firstFailure]
  | ok ts1 =>
    simp only [engineCut, hTok1]
    cases hTok2 : tok b.author with
    | error e => simp [hTok2, firstFailure, hTok1]
    | ok ts2 =>
      simp only
      rw [segmentChaptersTr_repr tok cjs b.chapters hrep]
      cases hF : firstFailure tok (chapterCalls b.chapters) with
      | some ke =>
        obtain ⟨kk, ee⟩ := ke
        simp [firstFailure, hTok1, hTok2, hF]
      | none =>
        simp [firstFailure, hTok1, hTok2, hF, encodeTB, segmentSpecE, tcOfE, okTok,
          encodeTC, List.map_map, Function.comp]

theorem segmentJson_repr {E : Type} (tok : String → Except E (List String)) (j : Json)
    (b : Book) (hr : reprBook j b = true) :
    segmentJson tok j =
      match firstFailure tok (callSeq b) with
      | some ke => Except.error (Err.engine ke.2)
      | none => Except.ok (encodeTB (segmentSpecE tok b)) := by
  rw [← segmentJsonTr_fst, segmentJsonTr_repr tok j b hr]

theorem segment_repr {E : Type} (tok : String → Except E (List String)) (raw : String)
    (j : Json) (b : Book) (hp : parseJson raw = some j) (hr : reprBook j b = true) :
    segment tok raw =
      match firstFailure tok (callSeq b) with
      | some ke => Except.error (Err.engine ke.2)
      | none => Except.ok (encodeTB (segmentSpecE tok b)) := by
  simp only [segment, hp]
  exact segmentJson_repr tok j b hr

theorem segmentSpecE_tokOk (t0 : String → List String) (b : Book) :
    segmentSpecE (tokOk t0) b = segmentSpec t0 b := rfl

theorem segment_repr_ok (t0 : String → List String) (raw : String) (j : Json) (b : Book)
    (hp : parseJson raw = some j) (hr : reprBook j b = true) :
    segment (tokOk t0) raw = .ok (encodeTB (segmentSpec t0 b)) := by
  rw [segment_repr (tokOk t0) raw j b hp hr, firstFailure_tokOk, segmentSpecE_tokOk]

theorem segmentJsonTr_trace_ok (t0 : String → List String) (j : Json) (b : Book)
    (hr : reprBook j b = true) :
    (segmentJsonTr (tokOk t0) j).2 = callSeq b := by
  rw [segmentJsonTr_repr (tokOk t0) j b hr, firstFailure_tokOk]

/-! Characterization of parse-phase failures for inputs whose present
required fields are well-typed. -/

theorem strOrAbsent_cases (kvs : List (String × Json)) (k : String)
    (h : strOrAbsent kvs k = true) :
    pyLookup kvs k = none ∨ ∃ s, pyLookup kvs k = some (.str s) := by
  unfold strOrAbsent at h
  cases hL : pyLookup kvs k with
  | none => exact Or.inl rfl
  | some v =>
    rw [hL] at h
    cases v with
    | str s => exact Or.inr ⟨s, rfl⟩
    | num n => simp at h
    | bool b => simp at h
    | null => simp at h
    | arr xs => simp at h
    | obj kvs2 => simp at h

theorem segmentChapters_parse_missing (t0 : String → List String) :
    ∀ cjs, cjs.all chWellTyped = true →
      isParseFailure (segmentChapters (tokOk t0) cjs) = cjs.any chMissing := by
  intro cjs
  induction cjs with
  | nil => intro h; simp [segmentChapters, isParseFailure]
  | cons cj cjs ih =>
    intro h
    simp only [List.all_cons, Bool.and_eq_true] at h
    obtain ⟨h1, h2⟩ := h
    cases cj with
    | str s => simp [chWellTyped] at h1
    | num n => simp [chWellTyped] at h1
    | bool b => simp [chWellTyped] at h1
    | null => simp [chWellTyped] at h1
    | arr xs => simp [chWellTyped] at h1
    | obj ckvs =>
      simp only [chWellTyped, Bool.and_eq_true] at h1
      obtain ⟨ht, hc⟩ := h1
      rcases strOrAbsent_cases ckvs "title" ht with hnone | ⟨s, hsome⟩
      · simp [segmentChapters, pySubscr, hnone, isParseFailure, Err.isParse,
          List.any_cons, chMissing]
      · rcases strOrAbsent_cases ckvs "content" hc with hnone2 | ⟨s2, hsome2⟩
        · simp [segmentChapters, pySubscr, hsome, hnone2, isParseFailure, Err.isParse,
            engineCut, tokOk, List.any_cons, chMissing]
        · simp only [segmentChapters, pySubscr, hsome, hsome2, engineCut, tokOk]
          have hrec := ih h2
          cases hR : segmentChapters (tokOk t0) cjs with
          | error e =>
            rw [hR] at hrec
            simp only [isParseFailure] at hrec
            simp [isParseFailure, List.any_cons, chMissing, hsome, hsome2, hrec]
          | ok outs =>
            rw [hR] at hrec
            simp only [isParseFailure] at hrec
            simp [isParseFailure, List.any_cons, chMissing, hsome, hsome2, ← hrec]

theorem segmentJson_parse_missing (t0 : String → List String) (j : Json)
    (hw : wellTypedPresent j = true) :
    isParseFailure (segmentJson (tokOk t0) j) = missingRequired j := by
  cases j with
  | str s => simp [wellTypedPresent] at hw
  | num n => simp [wellTypedPresent] at hw
  | bool b => simp [wellTypedPresent] at hw
  | null => simp [wellTypedPresent] at hw
  | arr xs => simp [wellTypedPresent] at hw
  | obj kvs =>
    simp only [wellTypedPresent, Bool.and_eq_true] at hw
    obtain ⟨⟨ht, ha⟩, hch⟩ := hw
    rcases strOrAbsent_cases kvs "title" ht with htn | ⟨s1, hts⟩
    · simp [segmentJson, pySubscr, htn, isParseFailure, Err.isParse, missingRequired]
    · rcases strOrAbsent_cases kvs "author" ha with han | ⟨s2, has⟩
      · simp [segmentJson, pySubscr, hts, han, isParseFailure, Err.isParse, missingRequired]
      · cases hL : pyLookup kvs "chapters" with
        | none =>
          simp [segmentJson, pySubscr, hts, has, hL, isParseFailure, Err.isParse,
            missingRequired]
        | some v =>
          rw [hL] at hch
          cases v with
          | str s => simp at hch
          | num n => simp at hch
          | bool b => simp at hch
          | null => simp at hch
          | obj kvs2 => simp at hch
          | arr cjs =>
            simp only at hch
            simp only [segmentJson, pySubscr, hts, has, hL, engineCut, tokOk, pyIter]
            have hrec := segmentChapters_parse_missing t0 cjs hch
            cases hR : segmentChapters (tokOk t0) cjs with
            | error e =>
              rw [hR] at hrec
              simp only [isParseFailure] at hrec
              simp [isParseFailure, missingRequired, hts, has, hL, hrec]
            | ok outs =>
              rw [hR] at hrec
              simp only [isParseFailure] at hrec
              simp [isParseFailure, missingRequired, hts, has, hL, ← hrec]

/-! Heap lemmas for the mutating implementation. -/

theorem set_append_len (h : Heap) (v x : List String) :
    (h ++ [v]).set h.length x = h ++ [x] := by
  induction h with
  | nil => rfl
  | cons a h ih => simp [List.set, ih]

theorem readRef_append_self (h : Heap) (v : List String) :
    readRef (h ++ [v]) h.length = v := by
  unfold readRef
  rw [List.getD_append_right _ _ _ _ (le_refl _)]
  simp

theorem readRef_append_lt (h t : Heap) (r : Nat) (hr : r < h.length) :
    readRef (h ++ t) r = readRef h r := by
  unfold readRef
  exact List.getD_append _ _ _ _ hr

theorem segmentImpLoop_spec (t0 : String → List String) :
    ∀ (cs : List Chapter) (h : Heap),
      (segmentImpLoop t0 h cs).1 = h ++ cs.map (fun c => t0 c.title ++ t0 c.content) ∧
      (segmentImpLoop t0 h cs).2.map
          (fun p => (⟨p.1, readRef (segmentImpLoop t0 h cs).1 p.2⟩ : TokenizedChapter)) =
        cs.map (fun c => ⟨c.title, t0 c.title ++ t0 c.content⟩) ∧
      ∀ r, r < h.length → readRef (segmentImpLoop t0 h cs).1 r = readRef h r := by
  intro cs
  induction cs with
  | nil =>
    intro h
    refine ⟨by simp [segmentImpLoop], by simp [segmentImpLoop], fun r hr => by simp [segmentImpLoop]⟩
  | cons c cs ih =>
    intro h
    have hext : extendRef (h ++ [t0 c.title]) h.length (t0 c.content) =
        h ++ [t0 c.title ++ t0 c.content] := by
      unfold extendRef
      rw [readRef_append_self, set_append_len]
    obtain ⟨ih1, ih2, ih3⟩ := ih (h ++ [t0 c.title ++ t0 c.content])
    have hstep : segmentImpLoop t0 h (c :: cs) =
        ((segmentImpLoop t0 (h ++ [t0 c.title ++ t0 c.content]) cs).1,
         (c.title, h.length) :: (segmentImpLoop t0 (h ++ [t0 c.title ++ t0 c.content]) cs).2) := by
      simp [segmentImpLoop, alloc, hext]
    refine ⟨?_, ?_, ?_⟩
    · rw [hstep]
      simp only [ih1]
      simp [List.append_assoc]
    · rw [hstep]
      simp only [List.map_cons]
      have hlt : h.length < (h ++ [t0 c.title ++ t0 c.content]).length := by simp
      rw [ih3 h.length hlt, readRef_append_self, ih2]
    · intro r hr
      rw [hstep]
      simp only
      have hlt : r < (h ++ [t0 c.title ++ t0 c.content]).length := by simp; omega
      rw [ih3 r hlt, readRef_append_lt _ _ _ hr]

/-! Claim theorems. -/

/-- C1: for every well-formed Book input, segment succeeds, the book-level
cut field of the output is the token sequence tokenize(title) concatenated
with tokenize(author) with each engine call order preserved, and the engine
invocation log shows exactly one call on the title and one on the author, in
that order, before the chapter fields. -/
theorem book_cut_is_title_then_author (t0 : String → List String) (raw : String)
    (j : Json) (b : Book) (hp : parseJson raw = some j) (hr : reprBook j b = true) :
    segment (tokOk t0) raw = .ok (encodeTB (segmentSpec t0 b)) ∧
    jGet (encodeTB (segmentSpec t0 b)) "cut" =
      some (Json.arr ((t0 b.title ++ t0 b.author).map Json.str)) ∧
    (segmentJsonTr (tokOk t0) j).2 = callSeq b := by
  refine ⟨segment_repr_ok t0 raw j b hp hr, ?_, segmentJsonTr_trace_ok t0 j b hr⟩
  simp +decide [jGet, encodeTB, pyLookup, segmentSpec]

theorem book_cut_is_title_then_author_witness :
    parseJson "\x7b\"title\": \"T\", \"author\": \"A\", \"chapters\": []\x7d" =
      some (Json.obj [("title", .str "T"), ("author", .str "A"), ("chapters", .arr [])]) ∧
    reprBook (Json.obj [("title", .str "T"), ("author", .str "A"), ("chapters", .arr [])])
      ⟨"T", "A", []⟩ = true ∧
    (segment (tokOk (fun s => [s]))
        "\x7b\"title\": \"T\", \"author\": \"A\", \"chapters\": []\x7d" =
      .ok (encodeTB (segmentSpec (fun s => [s]) ⟨"T", "A", []⟩)) ∧
    jGet (encodeTB (segmentSpec (fun s => [s]) ⟨"T", "A", []⟩)) "cut" =
      some (Json.arr (((fun s => [s]) "T" ++ (fun s => [s]) "A").map Json.str)) ∧
    (segmentJsonTr (tokOk (fun s => [s]))
        (Json.obj [("title", .str "T"), ("author", .str "A"), ("chapters", .arr [])])).2 =
      callSeq ⟨"T", "A", []⟩) :=
  ⟨rfl, rfl, book_cut_is_title_then_author (fun s => [s])
    "\x7b\"title\": \"T\", \"author\": \"A\", \"chapters\": []\x7d"
    (Json.obj [("title", .str "T"), ("author", .str "A"), ("chapters", .arr [])])
    ⟨"T", "A", []⟩ rfl rfl⟩

/-- C2: for every well-formed Book input and every chapter of it, the
corresponding output chapter record carries exactly the input chapter title,
unchanged, next to a cut equal to tokenize(chapter title) concatenated with
tokenize(chapter content). -/
theorem chapter_cut_and_title_echo (t0 : String → List String) (raw : String)
    (j : Json) (b : Book) (hp : parseJson raw = some j) (hr : reprBook j b = true)
    (i : Nat) (c : Chapter) (hc : b.chapters[i]? = some c) :
    segment (tokOk t0) raw = .ok (encodeTB (segmentSpec t0 b)) ∧
    jGet (encodeTB (segmentSpec t0 b)) "chapters" =
      some (Json.arr ((segmentSpec t0 b).chapters.map encodeTC)) ∧
    ((segmentSpec t0 b).chapters.map encodeTC)[i]? =
      some (Json.obj [("title", Json.str c.title),
        ("cut", Json.arr ((t0 c.title ++ t0 c.content).map Json.str))]) := by
  refine ⟨segment_repr_ok t0 raw j b hp hr, ?_, ?_⟩
  · simp +decide [jGet, encodeTB, pyLookup]
  · simp [segmentSpec, List.getElem?_map, hc, encodeTC]

theorem chapter_cut_and_title_echo_witness :
    parseJson "\x7b\"title\": \"T\", \"author\": \"A\", \"chapters\": [\x7b\"title\": \"C1\", \"content\": \"hw\"\x7d]\x7d" =
      some (Json.obj [("title", .str "T"), ("author", .str "A"),
        ("chapters", .arr [Json.obj [("title", .str "C1"), ("content", .str "hw")]])]) ∧
    reprBook (Json.obj [("title", .str "T"), ("author", .str "A"),
        ("chapters", .arr [Json.obj [("title", .str "C1"), ("content", .str "hw")]])])
      ⟨"T", "A", [⟨"C1", "hw"⟩]⟩ = true ∧
    (⟨"T", "A", [⟨"C1", "hw"⟩]⟩ : Book).chapters[0]? = some ⟨"C1", "hw"⟩ ∧
    ((segmentSpec (fun s => [s]) ⟨"T", "A", [⟨"C1", "hw"⟩]⟩).chapters.map encodeTC)[0]? =
      some (Json.obj [("title", Json.str "C1"),
        ("cut", Json.arr (((fun s => [s]) "C1" ++ (fun s => [s]) "hw").map Json.str))]) :=
  ⟨rfl, rfl, rfl,
   (chapter_cut_and_title_echo (fun s => [s])
     "\x7b\"title\": \"T\", \"author\": \"A\", \"chapters\": [\x7b\"title\": \"C1\", \"content\": \"hw\"\x7d]\x7d"
     (Json.obj [("title", .str "T"), ("author", .str "A"),
       ("chapters", .arr [Json.obj [("title", .str "C1"), ("content", .str "hw")]])])
     ⟨"T", "A", [⟨"C1", "hw"⟩]⟩ rfl rfl 0 ⟨"C1", "hw"⟩ rfl).2.2⟩

/-- C3: for every well-formed Book input, the output chapters array has
exactly as many entries as the input chapter list, and an empty input
chapter list yields an empty output chapters array. -/
theorem chapters_preserved_in_count (t0 : String → List String) (raw : String)
    (j : Json) (b : Book) (hp : parseJson raw = some j) (hr : reprBook j b = true) :
    segment (tokOk t0) raw = .ok (encodeTB (segmentSpec t0 b)) ∧
    ∃ l, jGet (encodeTB (segmentSpec t0 b)) "chapters" = some (Json.arr l) ∧
      l.length = b.chapters.length ∧ (b.chapters = [] → l = []) := by
  refine ⟨segment_repr_ok t0 raw j b hp hr,
    (segmentSpec t0 b).chapters.map encodeTC, ?_, ?_, ?_⟩
  · simp +decide [jGet, encodeTB, pyLookup]
  · simp [segmentSpec]
  · intro h; simp [segmentSpec, h]

theorem chapters_preserved_in_count_witness :
    parseJson "\x7b\"title\": \"T\", \"author\": \"A\", \"chapters\": []\x7d" =
      some (Json.obj [("title", .str "T"), ("author", .str "A"), ("chapters", .arr [])]) ∧
    reprBook (Json.obj [("title", .str "T"), ("author", .str "A"), ("chapters", .arr [])])
      ⟨"T", "A", []⟩ = true ∧
    (∃ l, jGet (encodeTB (segmentSpec (fun s => [s]) ⟨"T", "A", []⟩)) "chapters" =
        some (Json.arr l) ∧
      l.length = ([] : List Chapter).length ∧ (([] : List Chapter) = [] → l = [])) :=
  ⟨rfl, rfl,
   (chapters_preserved_in_count (fun s => [s])
     "\x7b\"title\": \"T\", \"author\": \"A\", \"chapters\": []\x7d"
     (Json.obj [("title", .str "T"), ("author", .str "A"), ("chapters", .arr [])])
     ⟨"T", "A", []⟩ rfl rfl).2⟩

/-- C4 (amended): segment raises a parse-phase failure exactly when the
input is not valid JSON or some required field is absent, provided every
present required field is well-typed.  The original claim also classified a
required field of the wrong type as a ParseError; the counterexample shows a
wrong-typed chapters field for which segment succeeds instead. -/
theorem parse_failure_iff_missing_required (t0 : String → List String) (raw : String)
    (hw : optAll wellTypedPresent (parseJson raw) = true) :
    isParseFailure (segment (tokOk t0) raw) =
      ((parseJson raw).map missingRequired).getD true := by
  cases hp : parseJson raw with
  | none => simp [segment, hp, isParseFailure, Err.isParse]
  | some j =>
    rw [hp] at hw
    simp only [optAll] at hw
    simp only [segment, hp]
    exact segmentJson_parse_missing t0 j hw

theorem parse_failure_iff_missing_required_witness :
    optAll wellTypedPresent (parseJson "\x7b\"title\": \"t\"\x7d") = true ∧
    isParseFailure (segment (tokOk (fun s => [s])) "\x7b\"title\": \"t\"\x7d") =
      ((parseJson "\x7b\"title\": \"t\"\x7d").map missingRequired).getD true :=
  ⟨rfl, parse_failure_iff_missing_required (fun s => [s]) "\x7b\"title\": \"t\"\x7d" rfl⟩

/-- C4 counterexample: the input below is valid JSON, its required chapters
field is present but of the wrong type (a dictionary, not an array), yet
segment succeeds with no error at all, hence in particular with no
ParseError, refuting the claimed equivalence as stated. -/
theorem wrong_typed_chapters_no_parse_error :
    parseJson "\x7b\"title\": \"t\", \"author\": \"a\", \"chapters\": \x7b\x7d\x7d" =
      some (Json.obj [("title", .str "t"), ("author", .str "a"), ("chapters", .obj [])]) ∧
    segment (tokOk (fun s => [s]))
        "\x7b\"title\": \"t\", \"author\": \"a\", \"chapters\": \x7b\x7d\x7d" =
      .ok (Json.obj [("cut", .arr [.str "t", .str "a"]), ("chapters", .arr [])]) ∧
    isParseFailure (segment (tokOk (fun s => [s]))
        "\x7b\"title\": \"t\", \"author\": \"a\", \"chapters\": \x7b\x7d\x7d") = false :=
  ⟨rfl, rfl, rfl⟩

/-- C5: whenever segment fails, segment_dump propagates the same error and
writes nothing to standard output. -/
theorem error_aborts_without_output {E : Type} (tok : String → Except E (List String))
    (raw : String) (e : Err E) (h : segment tok raw = .error e) :
    segment_dump tok raw = (.error e, []) := by
  simp [segment_dump, h]

theorem error_aborts_without_output_witness :
    segment (tokOk (fun s => [s])) "notjson" = .error .jsonDecode ∧
    segment_dump (tokOk (fun s => [s])) "notjson" = (.error .jsonDecode, []) :=
  ⟨rfl, error_aborts_without_output (tokOk (fun s => [s])) "notjson" Err.jsonDecode rfl⟩

/-- C6: whenever segment succeeds, segment_dump performs exactly one write
to standard output, whose content is the json.dumps serialization of the
result; with ensure_ascii=False every character of code point 128 and above
is emitted literally, never escaped. -/
theorem success_single_unescaped_write {E : Type} (tok : String → Except E (List String))
    (raw : String) (out : Json) (h : segment tok raw = .ok out) :
    segment_dump tok raw = (.ok (), [dumps out]) ∧
    (∀ c : Char, 128 ≤ c.toNat → escCharL c = [c]) := by
  constructor
  · simp [segment_dump, h]
  · intro c hc
    have h1 : ¬ c = qchar := by intro hq; rw [hq] at hc; exact absurd hc (by decide)
    have h2 : ¬ c = bslash := by intro hq; rw [hq] at hc; exact absurd hc (by decide)
    have h3 : ¬ c = '\n' := by intro hq; rw [hq] at hc; exact absurd hc (by decide)
    have h4 : ¬ c = '\t' := by intro hq; rw [hq] at hc; exact absurd hc (by decide)
    have h5 : ¬ c = '\r' := by intro hq; rw [hq] at hc; exact absurd hc (by decide)
    have h6 : ¬ c = bsChar := by intro hq; rw [hq] at hc; exact absurd hc (by decide)
    have h7 : ¬ c = ffChar := by intro hq; rw [hq] at hc; exact absurd hc (by decide)
    have h8 : ¬ c.toNat < 32 := by omega
    simp [escCharL, h1, h2, h3, h4, h5, h6, h7, h8]

theorem success_single_unescaped_write_witness :
    segment (tokOk (fun s => [s])) "\x7b\"title\": \"T\", \"author\": \"A\", \"chapters\": []\x7d" =
      .ok (Json.obj [("cut", .arr [.str "T", .str "A"]), ("chapters", .arr [])]) ∧
    segment_dump (tokOk (fun s => [s]))
        "\x7b\"title\": \"T\", \"author\": \"A\", \"chapters\": []\x7d" =
      (.ok (), [dumps (Json.obj [("cut", .arr [.str "T", .str "A"]), ("chapters", .arr [])])]) :=
  ⟨rfl, (success_single_unescaped_write (tokOk (fun s => [s]))
    "\x7b\"title\": \"T\", \"author\": \"A\", \"chapters\": []\x7d"
    (Json.obj [("cut", .arr [.str "T", .str "A"]), ("chapters", .arr [])]) rfl).1⟩

/-- C7: on a well-formed Book input, if the engine fails on the k-th text of
the run, segment propagates exactly that engine error as a
SegmentationError, and the invocation log is precisely the first k texts
followed by the failing one: every call before the failure was made once and
nothing was retried or called after it. -/
theorem engine_failure_propagates_untried {E : Type} (tok : String → Except E (List String))
    (raw : String) (j : Json) (b : Book) (k : Nat) (e : E)
    (hp : parseJson raw = some j) (hr : reprBook j b = true)
    (hf : firstFailure tok (callSeq b) = some (k, e)) :
    segment tok raw = .error (.engine e) ∧
    (segmentJsonTr tok j).2 = (callSeq b).take (k + 1) := by
  constructor
  · rw [segment_repr tok raw j b hp hr, hf]
  · rw [segmentJsonTr_repr tok j b hr, hf]

theorem engine_failure_propagates_untried_witness :
    parseJson "\x7b\"title\": \"T\", \"author\": \"A\", \"chapters\": []\x7d" =
      some (Json.obj [("title", .str "T"), ("author", .str "A"), ("chapters", .arr [])]) ∧
    reprBook (Json.obj [("title", .str "T"), ("author", .str "A"), ("chapters", .arr [])])
      ⟨"T", "A", []⟩ = true ∧
    firstFailure (fun s => if s = "A" then .error 7 else .ok [s])
      (callSeq ⟨"T", "A", []⟩) = some (1, 7) ∧
    (segment (fun s => if s = "A" then .error 7 else .ok [s])
        "\x7b\"title\": \"T\", \"author\": \"A\", \"chapters\": []\x7d" =
      .error (.engine 7) ∧
    (segmentJsonTr (fun s => if s = "A" then .error 7 else .ok [s])
        (Json.obj [("title", .str "T"), ("author", .str "A"), ("chapters", .arr [])])).2 =
      (callSeq ⟨"T", "A", []⟩).take 2) :=
  ⟨rfl, rfl, rfl,
   engine_failure_propagates_untried (fun s => if s = "A" then .error 7 else .ok [s])
     "\x7b\"title\": \"T\", \"author\": \"A\", \"chapters\": []\x7d"
     (Json.obj [("title", .str "T"), ("author", .str "A"), ("chapters", .arr [])])
     ⟨"T", "A", []⟩ 1 7 rfl rfl rfl⟩

/-- C8: the mutating extend-and-reuse implementation of the source, run with
Python list objects modeled as heap cells, computes for every Book and every
tokenizer exactly the TokenizedBook of the pure list-concatenation semantics
of the spec, section 4.1. -/
theorem mutating_extend_refines_spec (t0 : String → List String) (b : Book) :
    segmentImp t0 b = segmentSpec t0 b := by
  obtain ⟨h1, h2, h3⟩ := segmentImpLoop_spec t0 b.chapters [t0 b.title ++ t0 b.author]
  have hext : extendRef [t0 b.title] 0 (t0 b.author) = [t0 b.title ++ t0 b.author] := rfl
  have h0 : readRef (segmentImpLoop t0 [t0 b.title ++ t0 b.author] b.chapters).1 0 =
      t0 b.title ++ t0 b.author := by
    rw [h3 0 (by simp)]
    rfl
  simp only [segmentImp, alloc, List.nil_append, List.length_nil, hext]
  unfold segmentSpec
  rw [h0, h2]

/-- C9: whenever segment succeeds, serializing its output with json.dumps
and re-parsing that text with json.loads yields the output again, a
structurally identical value. -/
theorem serialize_reparse_roundtrip {E : Type} (tok : String → Except E (List String))
    (raw : String) (out : Json) (h : segment tok raw = .ok out) :
    parseJson (dumps out) = some out :=
  parseJson_dumps out (segment_textual tok raw out h)

theorem serialize_reparse_roundtrip_witness :
    segment (tokOk (fun s => [s])) "\x7b\"title\": \"T\", \"author\": \"A\", \"chapters\": []\x7d" =
      .ok (Json.obj [("cut", .arr [.str "T", .str "A"]), ("chapters", .arr [])]) ∧
    parseJson (dumps (Json.obj [("cut", .arr [.str "T", .str "A"]), ("chapters", .arr [])])) =
      some (Json.obj [("cut", .arr [.str "T", .str "A"]), ("chapters", .arr [])]) :=
  ⟨rfl, serialize_reparse_roundtrip (tokOk (fun s => [s]))
    "\x7b\"title\": \"T\", \"author\": \"A\", \"chapters\": []\x7d"
    (Json.obj [("cut", .arr [.str "T", .str "A"]), ("chapters", .arr [])]) rfl⟩

/-- C10: two input strings that decode to values representing the same Book,
whatever extra keys either carries, make segment produce identical outcomes,
for every engine. -/
theorem same_book_fields_same_output {E : Type} (tok : String → Except E (List String))
    (raw₁ raw₂ : String) (j₁ j₂ : Json) (b : Book)
    (hp₁ : parseJson raw₁ = some j₁) (hr₁ : reprBook j₁ b = true)
    (hp₂ : parseJson raw₂ = some j₂) (hr₂ : reprBook j₂ b = true) :
    segment tok raw₁ = segment tok raw₂ := by
  rw [segment_repr tok raw₁ j₁ b hp₁ hr₁, segment_repr tok raw₂ j₂ b hp₂ hr₂]

theorem same_book_fields_same_output_witness :
    parseJson "\x7b\"title\": \"T\", \"author\": \"A\", \"chapters\": []\x7d" =
      some (Json.obj [("title", .str "T"), ("author", .str "A"), ("chapters", .arr [])]) ∧
    reprBook (Json.obj [("title", .str "T"), ("author", .str "A"), ("chapters", .arr [])])
      ⟨"T", "A", []⟩ = true ∧
    parseJson "\x7b\"author\": \"A\", \"x\": 7, \"title\": \"T\", \"chapters\": []\x7d" =
      some (Json.obj [("author", .str "A"), ("x", .num 7), ("title", .str "T"),
        ("chapters", .arr [])]) ∧
    reprBook (Json.obj [("author", .str "A"), ("x", .num 7), ("title", .str "T"),
        ("chapters", .arr [])]) ⟨"T", "A", []⟩ = true ∧
    segment (tokOk (fun s => [s])) "\x7b\"title\": \"T\", \"author\": \"A\", \"chapters\": []\x7d" =
      segment (tokOk (fun s => [s]))
        "\x7b\"author\": \"A\", \"x\": 7, \"title\": \"T\", \"chapters\": []\x7d" :=
  ⟨rfl, rfl, rfl, rfl,
   same_book_fields_same_output (tokOk (fun s => [s]))
     "\x7b\"title\": \"T\", \"author\": \"A\", \"chapters\": []\x7d"
     "\x7b\"author\": \"A\", \"x\": 7, \"title\": \"T\", \"chapters\": []\x7d"
     (Json.obj [("title", .str "T"), ("author", .str "A"), ("chapters", .arr [])])
     (Json.obj [("author", .str "A"), ("x", .num 7), ("title", .str "T"),
       ("chapters", .arr [])])
     ⟨"T", "A", []⟩ rfl rfl rfl rfl⟩

end BookSeg
